import Mathlib

/-!
Verification of the PhoneStore cart/checkout core (src/src/db.js) against its
natural-language specification.

The JavaScript source is shallowly embedded: the Firestore document store
becomes an explicit `StoreState` record holding association lists keyed the
way the code keys its documents (`products` and `orders` by numeric doc id,
`cart_items` by the composite `user_product` doc id, i.e. the
(user_id, product_id) pair).  Each async function of db.js becomes a pure
Lean function from a `StoreState` (plus its arguments) to a result and a new
`StoreState`; a Firestore transaction is embedded as straight-line state
transformation (reads see the state at entry, writes apply atomically, a
thrown error aborts with the entry state).  JS numbers that the code only
ever uses as integers (ids, stock, quantity, price) are embedded as `Nat` or
`Int`; `created_at` ISO timestamps are embedded as `Nat` instants ordered as
the code orders them via `new Date(...)` subtraction.  The stable Array.sort
of V8 is embedded as a stable insertion sort `jsSort` over the comparator
translated to a `Bool` "comes before or equal" relation.
-/

/-- Characters treated as whitespace for the purposes of JS `trim` and the
`\s` regex class, restricted to the whitespace characters that occur in this
development. -/
def isJsWs (c : Char) : Bool :=
  c = ' ' || c = '\t' || c = '\n' || c = '\r' || c = '\x0b' || c = '\x0c'

/-- Unicode NFD canonical decomposition of a single character, exact on
ASCII (which has no decompositions) and on the precomposed Latin letters
listed below; all other characters appearing in this development do not
decompose. Models JS `String.prototype.normalize('NFD')`. -/
def nfdChar (c : Char) : List Char :=
  if c = 'á' then ['a', '́']
  else if c = 'à' then ['a', '̀']
  else if c = 'ạ' then ['a', '̣']
  else if c = 'é' then ['e', '́']
  else if c = 'è' then ['e', '̀']
  else if c = 'ê' then ['e', '̂']
  else if c = 'ệ' then ['e', '̣', '̂']
  else if c = 'ô' then ['o', '̂']
  else if c = 'í' then ['i', '́']
  else if c = 'É' then ['E', '́']
  else if c = 'À' then ['A', '̀']
  else if c = 'Ô' then ['O', '̂']
  else [c]

/-- Matches the regex class `[̀-ͯ]` of combining diacritical
marks used in db.js line 100. -/
def isCombiningMark (c : Char) : Bool :=
  decide (0x300 ≤ c.toNat) && decide (c.toNat ≤ 0x36F)

/-- JS `String.prototype.trim` on a character list: drop whitespace from
both ends. -/
def jsTrim (l : List Char) : List Char :=
  ((l.dropWhile isJsWs).reverse.dropWhile isJsWs).reverse

/-- Embedding of `normalizeText` (db.js lines 97-105): NFD decomposition,
strip combining marks U+0300..U+036F, replace every `đ` by `d`, then every
`Đ` by `D`, lower-case, trim.  Note: the source performs no collapsing of
internal whitespace. -/
def normalizeText (s : String) : String :=
  String.mk
    (jsTrim
      ((((((s.toList.flatMap nfdChar).filter
        (fun c => !(isCombiningMark c))).map
          (fun c => if c = 'đ' then 'd' else c)).map
            (fun c => if c = 'Đ' then 'D' else c)).map Char.toLower)))

/-- Tokens of a string: JS `s.split(/\s+/).filter(Boolean)`, i.e. the
maximal runs of non-whitespace characters. -/
def wsTokens (s : String) : List String :=
  ((s.toList.splitOnP isJsWs).filter (fun l => !(l.isEmpty))).map String.mk

/-- Helper for JS `String.prototype.includes`: `sub` occurs as a
contiguous sublist of `l`. -/
def subListOf (sub : List Char) : List Char → Bool
  | [] => sub.isEmpty
  | c :: t => sub.isPrefixOf (c :: t) || subListOf sub t

/-- JS `a.includes(b)`: `b` is a substring of `a`. -/
def jsIncludes (a b : String) : Bool := subListOf b.toList a.toList

/-- JS `a.startsWith(b)`. -/
def jsStartsWith (a b : String) : Bool := b.toList.isPrefixOf a.toList

/-- Stable insertion of one element into a sorted list: the new element
goes after every existing element `b` with `le b a`.  Together with
`jsSort` this reproduces the output of V8's stable `Array.prototype.sort`
with comparator `c` when `le a b` is `c(a,b) <= 0`. -/
def jsInsert (le : α → α → Bool) (a : α) : List α → List α
  | [] => [a]
  | b :: t => if le b a then b :: jsInsert le a t else a :: b :: t

/-- Stable sort by repeated insertion, processing the input left to
right. -/
def jsSort (le : α → α → Bool) (l : List α) : List α :=
  l.foldl (fun acc a => jsInsert le a acc) []

/-- Product document (db.js seed/create shape): name, description, price,
image_url, stock, category, created_at. -/
structure Product where
  name : String
  description : String
  price : Int
  image_url : String
  stock : Int
  category : String
  created_at : Nat
deriving DecidableEq

/-- Cart item document, one per `user_product` doc id. -/
structure CartRow where
  user_id : Nat
  product_id : Nat
  quantity : Int
deriving DecidableEq

/-- One frozen line of an order's `items` snapshot. -/
structure OrderItem where
  product_id : Nat
  name : String
  quantity : Int
  price_at_purchase : Int
deriving DecidableEq

/-- Shipping fields passed to `createOrder`. -/
structure Shipping where
  shipping_name : String
  shipping_phone : String
  shipping_address : String
deriving DecidableEq

/-- Order document as written by `createOrder` (db.js lines 371-380). -/
structure Order where
  user_id : Nat
  total_amount : Int
  status : String
  shipping_name : String
  shipping_phone : String
  shipping_address : String
  created_at : Nat
  items : List OrderItem
deriving DecidableEq

/-- The document store: products and orders keyed by numeric doc id, cart
items keyed by their embedded (user_id, product_id) pair, plus the
`counters/orders` value used by `nextId('orders')`. -/
structure StoreState where
  products : List (Nat × Product)
  cart_items : List CartRow
  orders : List (Nat × Order)
  order_counter : Nat
deriving DecidableEq

/-- Result shape of the cart mutations (`{ok, removed?, error?}`). -/
structure CartOpResult where
  ok : Bool
  removed : Bool
  error : Option String
deriving DecidableEq

def cartOk : CartOpResult := ⟨true, false, none⟩

def cartRemoved : CartOpResult := ⟨true, true, none⟩

def cartErr (msg : String) : CartOpResult := ⟨false, false, some msg⟩

/-- Result shape of `createOrder`. -/
structure OrderResult where
  ok : Bool
  error : Option String
  order : Option (Nat × Order)
deriving DecidableEq

def orderErr (msg : String) : OrderResult := ⟨false, some msg, none⟩

/-- Point lookup of a product document by doc id
(`db.collection('products').doc(String(pId))`). -/
def productLookup (s : StoreState) (pId : Nat) : Option Product :=
  (s.products.find? (fun kv => kv.fst == pId)).map Prod.snd

/-- Point lookup of the cart document with doc id `uId_pId`. -/
def cartRowLookup (s : StoreState) (u p : Nat) : Option CartRow :=
  s.cart_items.find? (fun r => r.user_id == u && r.product_id == p)

/-- Firestore `set` on the cart doc keyed `u_p`: overwrite the existing
row for that key, or create it. -/
def upsertCartRow (items : List CartRow) (u p : Nat) (q : Int) : List CartRow :=
  if items.any (fun r => r.user_id == u && r.product_id == p) then
    items.map (fun r =>
      if r.user_id == u && r.product_id == p then { r with quantity := q } else r)
  else items ++ [⟨u, p, q⟩]

/-- Firestore `delete` on the cart doc keyed `u_p`. -/
def deleteCartRow (items : List CartRow) (u p : Nat) : List CartRow :=
  items.filter (fun r => !(r.user_id == u && r.product_id == p))

/-- The quantity currently in the cart doc keyed `u_p`, or 0 when the doc
is absent (`cartSnap.exists ? Number(cartSnap.data().quantity || 0) : 0`). -/
def currentCartQty (s : StoreState) (u p : Nat) : Int :=
  match cartRowLookup s u p with
  | some r => r.quantity
  | none => 0

/-- Embedding of `addToCart` (db.js lines 271-300). -/
def addToCart (s : StoreState) (userId productId : Nat) (quantity : Int) :
    CartOpResult × StoreState :=
  match productLookup s productId with
  | none => (cartErr "Product not found.", s)
  | some p =>
    if p.stock < quantity then (cartErr "Not enough stock available.", s)
    else
      let newQty := min (currentCartQty s userId productId + quantity) p.stock
      (cartOk, { s with cart_items := upsertCartRow s.cart_items userId productId newQty })

/-- Embedding of `updateCartItem` (db.js lines 302-326). -/
def updateCartItem (s : StoreState) (userId productId : Nat) (quantity : Int) :
    CartOpResult × StoreState :=
  if quantity ≤ 0 then
    (cartRemoved, { s with cart_items := deleteCartRow s.cart_items userId productId })
  else
    match productLookup s productId with
    | none => (cartErr "Product not found.", s)
    | some p =>
      (cartOk,
        { s with cart_items :=
            upsertCartRow s.cart_items userId productId (min quantity p.stock) })

/-- Embedding of `removeCartItem` (db.js lines 328-332). -/
def removeCartItem (s : StoreState) (userId productId : Nat) : StoreState :=
  { s with cart_items := deleteCartRow s.cart_items userId productId }

/-- Partial update payload for `updateProduct` (`set` with merge): each
field either kept or overwritten. -/
structure ProductPatch where
  name : Option String
  description : Option String
  price : Option Int
  image_url : Option String
  stock : Option Int
  category : Option String
deriving DecidableEq

def applyPatch (p : Product) (patch : ProductPatch) : Product :=
  { name := patch.name.getD p.name
    description := patch.description.getD p.description
    price := patch.price.getD p.price
    image_url := patch.image_url.getD p.image_url
    stock := patch.stock.getD p.stock
    category := patch.category.getD p.category
    created_at := p.created_at }

/-- Embedding of `updateProduct` (db.js lines 224-231): returns `none` if
the product is absent, otherwise merges the payload and returns the
updated document. -/
def updateProduct (s : StoreState) (id : Nat) (patch : ProductPatch) :
    Option Product × StoreState :=
  match productLookup s id with
  | none => (none, s)
  | some p =>
    let p2 := applyPatch p patch
    (some p2,
      { s with products :=
          s.products.map (fun kv => if kv.fst == id then (kv.fst, applyPatch kv.snd patch) else kv) })

/-- Embedding of `deleteProduct` (db.js lines 233-240): delete the product
doc, then delete every cart item referencing it. -/
def deleteProduct (s : StoreState) (id : Nat) : StoreState :=
  { s with
    products := s.products.filter (fun kv => !(kv.fst == id))
    cart_items := s.cart_items.filter (fun r => !(r.product_id == id)) }

/-- First loop of the `createOrder` transaction (db.js lines 347-367):
re-read each cart line's product, throw on a missing product or a quantity
exceeding current stock, and build the frozen `items` snapshot. -/
def buildOrderItems (s : StoreState) : List CartRow → Except String (List OrderItem)
  | [] => .ok []
  | c :: rest =>
    match productLookup s c.product_id with
    | none => .error "Product not found in cart."
    | some p =>
      if p.stock < c.quantity then .error ("Insufficient stock for " ++ p.name ++ ".")
      else
        match buildOrderItems s rest with
        | .error msg => .error msg
        | .ok items => .ok (⟨c.product_id, p.name, c.quantity, p.price⟩ :: items)

/-- Second loop of the `createOrder` transaction (db.js lines 382-390):
for each cart line, decrement the product's stock by the line's quantity
and delete the cart row. -/
def decrementAndClear (s : StoreState) : List CartRow → StoreState
  | [] => s
  | c :: rest =>
    decrementAndClear
      { s with
        products := s.products.map (fun kv =>
          if kv.fst == c.product_id then
            (kv.fst, { kv.snd with stock := kv.snd.stock - c.quantity })
          else kv)
        cart_items := deleteCartRow s.cart_items c.user_id c.product_id }
      rest

/-- Embedding of `createOrder` (db.js lines 334-398).  The `t` argument is
the `now()` instant recorded as the order's `created_at`. -/
def createOrder (s : StoreState) (userId : Nat) (sh : Shipping) (t : Nat) :
    OrderResult × StoreState :=
  let cartDocs := s.cart_items.filter (fun r => r.user_id == userId)
  if cartDocs.isEmpty then (orderErr "Your cart is empty.", s)
  else
    let orderId := s.order_counter
    let s1 := { s with order_counter := s.order_counter + 1 }
    match buildOrderItems s1 cartDocs with
    | .error msg => (orderErr msg, s1)
    | .ok items =>
      let total := (items.map (fun i => i.price_at_purchase * i.quantity)).sum
      let ord : Order :=
        ⟨userId, total, "Pending", sh.shipping_name, sh.shipping_phone,
          sh.shipping_address, t, items⟩
      let s2 := { s1 with orders := s1.orders ++ [(orderId, ord)] }
      (⟨true, none, some (orderId, ord)⟩, decrementAndClear s2 cartDocs)

/-- Comparator of db.js line 404 (`dateB - dateA`) as a "comes before or
equal" relation: newest first. -/
def orderCreatedLe (a b : Nat × Order) : Bool :=
  decide (b.snd.created_at ≤ a.snd.created_at)

/-- Embedding of `listOrdersByUser` (db.js lines 400-405). -/
def listOrdersByUser (s : StoreState) (userId : Nat) : List (Nat × Order) :=
  jsSort orderCreatedLe (s.orders.filter (fun kv => kv.snd.user_id == userId))

/-- Additive relevance score of db.js lines 188-201 for one product,
given the normalized query `key` and its whitespace tokens. -/
def productScore (key : String) (tokens : List String) (p : Product) : Int :=
  (if normalizeText p.name = key then 100 else 0)
  + (if jsStartsWith (normalizeText p.name) key then 60 else 0)
  + (if jsIncludes (normalizeText p.name) key then 40 else 0)
  + (if !tokens.isEmpty && tokens.all (fun t => jsIncludes (normalizeText p.name) t) then 30 else 0)
  + (if jsIncludes (normalizeText p.description) key then 10 else 0)
  + (if !tokens.isEmpty && tokens.all (fun t => jsIncludes (normalizeText p.description) t) then 5 else 0)

/-- Comparator of db.js line 203 (`b.score - a.score || dateB - dateA`) as
a "comes before or equal" relation on scored candidates. -/
def scoredLe (a b : (Nat × Product) × Int) : Bool :=
  decide (b.snd < a.snd)
    || (decide (a.snd = b.snd) && decide (b.fst.snd.created_at ≤ a.fst.snd.created_at))

/-- The free-text branch of `listProducts` (db.js lines 183-206): score
every candidate, drop score 0, sort by score then recency, return the
products. -/
def searchRank (candidates : List (Nat × Product)) (q : String) : List (Nat × Product) :=
  let key := normalizeText q
  let tokens := wsTokens key
  ((jsSort scoredLe
      ((candidates.map (fun kv => (kv, productScore key tokens kv.snd))).filter
        (fun x => decide (0 < x.snd)))).map Prod.fst)

/-- Comparator of db.js line 209: newest `created_at` first. -/
def prodCreatedLe (a b : Nat × Product) : Bool :=
  decide (b.snd.created_at ≤ a.snd.created_at)

/-- Embedding of `listProducts` (db.js lines 173-210).  `none` or an empty
string model a falsy `category`/`q`. -/
def listProducts (s : StoreState) (category : Option String) (q : Option String) :
    List (Nat × Product) :=
  let base :=
    match category with
    | some c => if c ≠ "" then s.products.filter (fun kv => kv.snd.category == c) else s.products
    | none => s.products
  match q with
  | some qs => if qs ≠ "" then searchRank base qs else jsSort prodCreatedLe base
  | none => jsSort prodCreatedLe base

/-- Modelled from the spec claim wording (C7): the normalization it
describes, as the composition "Unicode decomposition, strip diacritics,
map đ/Đ to d/D, lower-case, trim, collapse internal whitespace".  The
collapsing step joins the whitespace-separated tokens with single
spaces. -/
def claimNormalize (s : String) : String :=
  String.intercalate " "
    (wsTokens
      (String.mk
        (jsTrim
          ((((s.toList.flatMap nfdChar).filter
            (fun c => !(isCombiningMark c))).map
              (fun c => if c = 'đ' then 'd' else if c = 'Đ' then 'D' else c)).map
                Char.toLower))))

/-- Modelled from the spec claim wording (C7), amended: the same pipeline
without the whitespace-collapsing step. -/
def claimNormalizeNoCollapse (s : String) : String :=
  String.mk
    (jsTrim
      ((((s.toList.flatMap nfdChar).filter
        (fun c => !(isCombiningMark c))).map
          (fun c => if c = 'đ' then 'd' else if c = 'Đ' then 'D' else c)).map
            Char.toLower))

/-- Modelled from the spec claim wording (C8): the additive score with the
six enumerated components, without the implementation's guard that the
token list be non-empty. -/
def claimScore (key : String) (tokens : List String) (p : Product) : Int :=
  (if normalizeText p.name = key then 100 else 0)
  + (if jsStartsWith (normalizeText p.name) key then 60 else 0)
  + (if jsIncludes (normalizeText p.name) key then 40 else 0)
  + (if tokens.all (fun t => jsIncludes (normalizeText p.name) t) then 30 else 0)
  + (if jsIncludes (normalizeText p.description) key then 10 else 0)
  + (if tokens.all (fun t => jsIncludes (normalizeText p.description) t) then 5 else 0)

/-- Operations quantified over by the stock invariant claim (C3). -/
inductive StoreOp where
  | addOp (u p : Nat) (q : Int)
  | updOp (u p : Nat) (q : Int)
  | orderOp (u : Nat) (sh : Shipping) (t : Nat)

def applyOp (s : StoreState) : StoreOp → StoreState
  | .addOp u p q => (addToCart s u p q).snd
  | .updOp u p q => (updateCartItem s u p q).snd
  | .orderOp u sh t => (createOrder s u sh t).snd

def runOps (s : StoreState) : List StoreOp → StoreState
  | [] => s
  | op :: rest => runOps (applyOp s op) rest

/-- Operations quantified over by the cart-quantity invariant claim (C6). -/
inductive CartOp where
  | addOp (u p : Nat) (q : Int)
  | updOp (u p : Nat) (q : Int)
  | remOp (u p : Nat)

def applyCartOp (s : StoreState) : CartOp → StoreState
  | .addOp u p q => (addToCart s u p q).snd
  | .updOp u p q => (updateCartItem s u p q).snd
  | .remOp u p => removeCartItem s u p

def runCartOps (s : StoreState) : List CartOp → StoreState
  | [] => s
  | op :: rest => runCartOps (applyCartOp s op) rest

/-- Store well-formedness guaranteed by the document keying: at most one
cart document per `u_p` doc id and at most one product document per doc
id. -/
def cartKeysNodup (s : StoreState) : Prop :=
  (s.cart_items.map (fun r => (r.user_id, r.product_id))).Nodup

def productKeysNodup (s : StoreState) : Prop :=
  (s.products.map Prod.fst).Nodup

/-- Side condition of the amended quantity-positivity claim (C6): an
`addToCart` call requests at least one unit, and an `updateCartItem` call
either removes the row (quantity ≤ 0) or targets a product whose stock is
at least 1 (`updateCartItem` clamps the new quantity to the stock, so a
zero stock would produce a zero-quantity row). -/
def cartOpSafe (s : StoreState) : CartOp → Prop
  | .addOp _ _ q => 1 ≤ q
  | .updOp _ p q =>
    q ≤ 0 ∨
      (match productLookup s p with
       | some prod => 1 ≤ prod.stock
       | none => True)
  | .remOp _ _ => True

/-! ## General lemmas about the embedded JS stable sort -/

theorem jsInsert_perm (le : α → α → Bool) (a : α) (l : List α) :
    (jsInsert le a l).Perm (a :: l) := by
  induction l with
  | nil => simp [jsInsert]
  | cons b t ih =>
    by_cases h : le b a
    · simpa [jsInsert, h] using (ih.cons b).trans (List.Perm.swap a b t)
    · simp [jsInsert, h]

theorem mem_jsInsert {le : α → α → Bool} {a x : α} {l : List α} :
    x ∈ jsInsert le a l ↔ x = a ∨ x ∈ l := by
  rw [(jsInsert_perm le a l).mem_iff, List.mem_cons]

theorem jsSort_perm (le : α → α → Bool) (l : List α) : (jsSort le l).Perm l := by
  have aux : ∀ (l acc : List α),
      (l.foldl (fun acc a => jsInsert le a acc) acc).Perm (l ++ acc) := by
    intro l
    induction l with
    | nil => intro acc; simp
    | cons a t ih =>
      intro acc
      have h1 := ih (jsInsert le a acc)
      have h2 : (t ++ jsInsert le a acc).Perm (t ++ (a :: acc)) :=
        List.Perm.append_left t (jsInsert_perm le a acc)
      have h3 : (t ++ (a :: acc)).Perm (a :: (t ++ acc)) := List.perm_middle
      exact (h1.trans (h2.trans h3))
  simpa using aux l []

theorem mem_jsSort {le : α → α → Bool} {x : α} {l : List α} :
    x ∈ jsSort le l ↔ x ∈ l :=
  (jsSort_perm le l).mem_iff

theorem pairwise_jsInsert (le : α → α → Bool)
    (htrans : ∀ x y z, le x y = true → le y z = true → le x z = true)
    (htot : ∀ x y, le x y = true ∨ le y x = true) (a : α) (l : List α)
    (h : l.Pairwise (fun x y => le x y = true)) :
    (jsInsert le a l).Pairwise (fun x y => le x y = true) := by
  induction l with
  | nil => simp [jsInsert]
  | cons b t ih =>
    rw [List.pairwise_cons] at h
    obtain ⟨hb, ht⟩ := h
    by_cases hba : le b a = true
    · rw [jsInsert, if_pos hba]
      rw [List.pairwise_cons]
      refine ⟨?_, ih ht⟩
      intro y hy
      rcases mem_jsInsert.mp hy with rfl | hyt
      · exact hba
      · exact hb y hyt
    · rw [jsInsert, if_neg hba]
      have hab : le a b = true := (htot a b).resolve_right hba
      rw [List.pairwise_cons]
      refine ⟨?_, List.pairwise_cons.mpr ⟨hb, ht⟩⟩
      intro y hy
      rcases List.mem_cons.mp hy with rfl | hyt
      · exact hab
      · exact htrans a b y hab (hb y hyt)

theorem pairwise_jsSort (le : α → α → Bool)
    (htrans : ∀ x y z, le x y = true → le y z = true → le x z = true)
    (htot : ∀ x y, le x y = true ∨ le y x = true) (l : List α) :
    (jsSort le l).Pairwise (fun x y => le x y = true) := by
  have aux : ∀ (l acc : List α), acc.Pairwise (fun x y => le x y = true) →
      (l.foldl (fun acc a => jsInsert le a acc) acc).Pairwise (fun x y => le x y = true) := by
    intro l
    induction l with
    | nil => intro acc h; exact h
    | cons a t ih =>
      intro acc h
      exact ih _ (pairwise_jsInsert le htrans htot a acc h)
  exact aux l [] List.Pairwise.nil

/-! ## Claim C7: text normalization -/

/-- C7 counterexample: `normalizeText` does not collapse internal runs of
whitespace — on the input `"a  b"` it returns `"a  b"` unchanged, while the
normalization described by the claim (with the collapsing step,
`claimNormalize`) would return `"a b"`. -/
theorem c7_counterexample :
    normalizeText "a  b" = "a  b" ∧ claimNormalize "a  b" = "a b" ∧
      normalizeText "a  b" ≠ claimNormalize "a  b" :=
  ⟨by decide, by decide, by decide⟩

/-- C7 amended: for every input string, `normalizeText` performs Unicode
decomposition, strips combining diacritics, maps đ/Đ to d/D, lower-cases
and trims — i.e. it agrees everywhere with the claim's pipeline without
the whitespace-collapsing step — but it does not collapse internal
whitespace runs, as the two concrete evaluations show. -/
theorem c7_normalizeText_amended :
    (∀ s : String, normalizeText s = claimNormalizeNoCollapse s) ∧
      normalizeText "  Điện  Thoại  " = "dien  thoai" ∧
      normalizeText "a  b" = "a  b" := by
  refine ⟨?_, by decide, by decide⟩
  intro s
  have hfun : ∀ c : Char,
      ((fun c => if c = 'Đ' then 'D' else c) ∘ (fun c => if c = 'đ' then 'd' else c)) c
        = (if c = 'đ' then 'd' else if c = 'Đ' then 'D' else c) := by
    intro c
    by_cases h1 : c = 'đ'
    · subst h1; decide
    · simp [Function.comp, h1]
  have hmaps : ∀ l : List Char,
      (l.map (fun c => if c = 'đ' then 'd' else c)).map (fun c => if c = 'Đ' then 'D' else c)
        = l.map (fun c => if c = 'đ' then 'd' else if c = 'Đ' then 'D' else c) := by
    intro l
    rw [List.map_map]
    exact List.map_congr_left (fun c _ => hfun c)
  rw [normalizeText, claimNormalizeNoCollapse, hmaps]

/-! ## Claim C5: the clamping example from the spec -/

/-- C5 counterexample: with a product of stock 5 and an empty cart,
`addToCart` with requested quantity 10 does not report success with a
clamped quantity of 5; it fails the `product.stock < quantity` check and
returns the insufficient-stock error, leaving the cart empty. -/
theorem c5_counterexample :
    (addToCart ⟨[(1, ⟨"A", "desc", 100, "url", 5, "Phone", 1⟩)], [], [], 1⟩ 7 1 10).fst
        = cartErr "Not enough stock available." ∧
      (addToCart ⟨[(1, ⟨"A", "desc", 100, "url", 5, "Phone", 1⟩)], [], [], 1⟩ 7 1 10).snd.cart_items
        = [] :=
  ⟨by decide, by decide⟩

/-- C5 amended: for a product with stock 5 and a user whose cart is empty
for that product, `addToCart` with requested quantity 10 fails with the
insufficient-stock error and leaves the store unchanged (the min-clamping
only applies when the requested quantity is at most the stock, e.g. adding
4 on top of an existing cart quantity 3 clamps the row to 5). -/
theorem c5_amended :
    addToCart ⟨[(1, ⟨"A", "desc", 100, "url", 5, "Phone", 1⟩)], [], [], 1⟩ 7 1 10
        = (cartErr "Not enough stock available.",
            ⟨[(1, ⟨"A", "desc", 100, "url", 5, "Phone", 1⟩)], [], [], 1⟩) ∧
      (addToCart ⟨[(1, ⟨"A", "desc", 100, "url", 5, "Phone", 1⟩)], [⟨7, 1, 3⟩], [], 1⟩ 7 1 4).fst
        = cartOk ∧
      (addToCart ⟨[(1, ⟨"A", "desc", 100, "url", 5, "Phone", 1⟩)], [⟨7, 1, 3⟩], [], 1⟩ 7 1 4).snd.cart_items
        = [⟨7, 1, 5⟩] :=
  ⟨by decide, by decide, by decide⟩

/-! ## Claim C9: product mutations never touch orders -/

/-- C9: `updateProduct` and `deleteProduct` leave the `orders` collection
exactly as it was (so a committed order's `items` and `total_amount` are
unaffected by later product edits or deletion), and `deleteProduct`'s only
cascade is removing the product document itself and every cart item
referencing it. -/
theorem c9_order_immutability :
    (∀ (s : StoreState) (id : Nat) (patch : ProductPatch),
        ((updateProduct s id patch).snd).orders = s.orders) ∧
      (∀ (s : StoreState) (id : Nat), (deleteProduct s id).orders = s.orders) ∧
      (∀ (s : StoreState) (id : Nat),
        (deleteProduct s id).cart_items
          = s.cart_items.filter (fun r => !(r.product_id == id))) ∧
      (∀ (s : StoreState) (id : Nat),
        (deleteProduct s id).products
          = s.products.filter (fun kv => !(kv.fst == id))) := by
  refine ⟨?_, ?_, ?_, ?_⟩
  · intro s id patch
    cases h : productLookup s id <;> simp [updateProduct, h]
  · intro s id; rfl
  · intro s id; rfl
  · intro s id; rfl

/-! ## Claim C10: per-user order listing -/

theorem orderCreatedLe_trans : ∀ x y z : Nat × Order,
    orderCreatedLe x y = true → orderCreatedLe y z = true → orderCreatedLe x z = true := by
  intro x y z hxy hyz
  simp only [orderCreatedLe, decide_eq_true_eq] at hxy hyz ⊢
  omega

theorem orderCreatedLe_total : ∀ x y : Nat × Order,
    orderCreatedLe x y = true ∨ orderCreatedLe y x = true := by
  intro x y
  simp only [orderCreatedLe, decide_eq_true_eq]
  omega

/-- C10: `listOrdersByUser` returns exactly the order documents whose
`user_id` equals the given numeric user id, sorted by `created_at`
descending (newest first). -/
theorem c10_listOrdersByUser (s : StoreState) (userId : Nat) :
    (∀ kv : Nat × Order,
        kv ∈ listOrdersByUser s userId ↔ kv ∈ s.orders ∧ kv.snd.user_id = userId) ∧
      (listOrdersByUser s userId).Pairwise
        (fun a b => b.snd.created_at ≤ a.snd.created_at) := by
  constructor
  · intro kv
    simp [listOrdersByUser, mem_jsSort, List.mem_filter]
  · exact (pairwise_jsSort orderCreatedLe orderCreatedLe_trans orderCreatedLe_total
      (s.orders.filter (fun kv => kv.snd.user_id == userId))).imp
      (fun h => by simpa [orderCreatedLe, decide_eq_true_eq] using h)

/-! ## Claim C8: free-text ranking -/

theorem scoredLe_trans : ∀ x y z : (Nat × Product) × Int,
    scoredLe x y = true → scoredLe y z = true → scoredLe x z = true := by
  intro x y z hxy hyz
  simp only [scoredLe, Bool.or_eq_true, Bool.and_eq_true, decide_eq_true_eq] at hxy hyz ⊢
  omega

theorem scoredLe_total : ∀ x y : (Nat × Product) × Int,
    scoredLe x y = true ∨ scoredLe y x = true := by
  intro x y
  simp only [scoredLe, Bool.or_eq_true, Bool.and_eq_true, decide_eq_true_eq]
  omega

/-- C8: for a free-text query whose normalized form has at least one
token, `searchRank` keeps exactly the candidates with positive score,
orders them by score descending with ties broken by `created_at`
descending, and its score is the additive six-component score of the
claim; concretely, the query "iphone" against the seed products
"iPhone 16 Pro" and "Wireless Earbuds Pro" returns only "iPhone 16
Pro". -/
theorem c8_searchRank (q : String) (candidates : List (Nat × Product))
    (h : wsTokens (normalizeText q) ≠ []) :
    (∀ kv : Nat × Product,
        kv ∈ searchRank candidates q ↔
          kv ∈ candidates ∧
            0 < productScore (normalizeText q) (wsTokens (normalizeText q)) kv.snd) ∧
      (searchRank candidates q).Pairwise (fun a b =>
        productScore (normalizeText q) (wsTokens (normalizeText q)) b.snd
            < productScore (normalizeText q) (wsTokens (normalizeText q)) a.snd
          ∨ (productScore (normalizeText q) (wsTokens (normalizeText q)) a.snd
                = productScore (normalizeText q) (wsTokens (normalizeText q)) b.snd
              ∧ b.snd.created_at ≤ a.snd.created_at)) ∧
      (∀ p : Product,
        productScore (normalizeText q) (wsTokens (normalizeText q)) p
          = claimScore (normalizeText q) (wsTokens (normalizeText q)) p) ∧
      listProducts
          ⟨[(1, ⟨"iPhone 16 Pro", "Latest Apple flagship with advanced camera system.",
              1299, "u1", 15, "Phone", 6⟩),
            (2, ⟨"Wireless Earbuds Pro", "Noise-cancelling earbuds with long battery life.",
              149, "u2", 45, "Accessory", 2⟩)], [], [], 1⟩ none (some "iphone")
        = [(1, ⟨"iPhone 16 Pro", "Latest Apple flagship with advanced camera system.",
            1299, "u1", 15, "Phone", 6⟩)] := by
  refine ⟨?_, ?_, ?_, by decide⟩
  · intro kv
    constructor
    · intro hm
      simp only [searchRank, List.mem_map] at hm
      obtain ⟨x, hx, rfl⟩ := hm
      rw [mem_jsSort, List.mem_filter] at hx
      obtain ⟨hxs, hpos⟩ := hx
      simp only [List.mem_map] at hxs
      obtain ⟨kv', hkv', rfl⟩ := hxs
      exact ⟨hkv', of_decide_eq_true hpos⟩
    · rintro ⟨hmem, hpos⟩
      simp only [searchRank, List.mem_map]
      refine ⟨(kv, productScore (normalizeText q) (wsTokens (normalizeText q)) kv.snd),
        ?_, rfl⟩
      rw [mem_jsSort, List.mem_filter]
      exact ⟨List.mem_map.mpr ⟨kv, hmem, rfl⟩, decide_eq_true hpos⟩
  · have hsorted := pairwise_jsSort scoredLe scoredLe_trans scoredLe_total
      ((candidates.map (fun kv =>
        (kv, productScore (normalizeText q) (wsTokens (normalizeText q)) kv.snd))).filter
          (fun x => decide (0 < x.snd)))
    have hshape : ∀ x ∈ jsSort scoredLe
        ((candidates.map (fun kv =>
          (kv, productScore (normalizeText q) (wsTokens (normalizeText q)) kv.snd))).filter
            (fun x => decide (0 < x.snd))),
        x.snd = productScore (normalizeText q) (wsTokens (normalizeText q)) x.fst.snd := by
      intro x hx
      rw [mem_jsSort, List.mem_filter] at hx
      obtain ⟨hxs, _⟩ := hx
      simp only [List.mem_map] at hxs
      obtain ⟨kv', _, rfl⟩ := hxs
      rfl
    simp only [searchRank]
    rw [List.pairwise_map]
    refine List.Pairwise.imp_of_mem ?_ hsorted
    intro a b ha hb hab
    have ha' := hshape a ha
    have hb' := hshape b hb
    simp only [scoredLe, Bool.or_eq_true, Bool.and_eq_true, decide_eq_true_eq] at hab
    rw [ha', hb'] at hab
    exact hab
  · intro p
    have htok : (wsTokens (normalizeText q)).isEmpty = false := by
      cases he : (wsTokens (normalizeText q)).isEmpty
      · rfl
      · exact absurd (by simpa using he) h
    simp [productScore, claimScore, htok]

/-- C8 witness: the hypothesis holds for the concrete query "iphone" and
the score characterization follows from the theorem there. -/
theorem c8_witness :
    wsTokens (normalizeText "iphone") ≠ [] ∧
      (∀ p : Product,
        productScore (normalizeText "iphone") (wsTokens (normalizeText "iphone")) p
          = claimScore (normalizeText "iphone") (wsTokens (normalizeText "iphone")) p) :=
  ⟨by decide, (c8_searchRank "iphone" [] (by decide)).2.2.1⟩


/-! ## Lemmas about the keyed cart upsert -/

theorem filter_key_eq_nil (t : List CartRow) (u p : Nat)
    (hnm : ∀ r ∈ t, ((r.user_id == u && r.product_id == p)) = false) :
    t.filter (fun r => r.user_id == u && r.product_id == p) = [] := by
  induction t with
  | nil => rfl
  | cons r t ih =>
    rw [List.filter_cons, if_neg (by simp [hnm r (List.mem_cons_self r t)])]
    exact ih (fun x hx => hnm x (List.mem_cons_of_mem r hx))

theorem map_update_id (t : List CartRow) (u p : Nat) (q : Int)
    (hnm : ∀ r ∈ t, ((r.user_id == u && r.product_id == p)) = false) :
    t.map (fun r =>
      if r.user_id == u && r.product_id == p then { r with quantity := q } else r) = t := by
  rw [List.map_congr_left (g := id) (fun r hr => by simp [hnm r hr]), List.map_id]

theorem map_update_filter_key (l : List CartRow) (u p : Nat) (q : Int)
    (h : (l.map (fun r => (r.user_id, r.product_id))).Nodup)
    (hex : (l.any (fun r => r.user_id == u && r.product_id == p)) = true) :
    (l.map (fun r =>
        if r.user_id == u && r.product_id == p then { r with quantity := q } else r)).filter
      (fun r => r.user_id == u && r.product_id == p) = [⟨u, p, q⟩] := by
  induction l with
  | nil => simp at hex
  | cons r t ih =>
    rw [List.map_cons, List.nodup_cons] at h
    obtain ⟨hknot, hkt⟩ := h
    rcases Bool.eq_false_or_eq_true (r.user_id == u && r.product_id == p) with hr | hr
    · have hpair := hr
      simp only [Bool.and_eq_true, beq_iff_eq] at hpair
      obtain ⟨hru, hrp⟩ := hpair
      have hnmt : ∀ x ∈ t, ((x.user_id == u && x.product_id == p)) = false := by
        intro x hx
        rcases Bool.eq_false_or_eq_true (x.user_id == u && x.product_id == p) with hc | hc
        · exfalso
          have hcp := hc
          simp only [Bool.and_eq_true, beq_iff_eq] at hcp
          obtain ⟨hxu, hxp⟩ := hcp
          exact hknot (by
            rw [hru, hrp]
            exact List.mem_map.mpr ⟨x, hx, by rw [hxu, hxp]⟩)
        · exact hc
      rw [List.map_cons, if_pos hr, map_update_id t u p q hnmt, List.filter_cons]
      have hmodc : ((({ r with quantity := q } : CartRow).user_id == u
          && ({ r with quantity := q } : CartRow).product_id == p)) = true := hr
      rw [if_pos hmodc, filter_key_eq_nil t u p hnmt]
      have hrow : ({ r with quantity := q } : CartRow) = ⟨u, p, q⟩ := by
        rw [show ({ r with quantity := q } : CartRow) = ⟨r.user_id, r.product_id, q⟩ from rfl,
          hru, hrp]
      rw [hrow]
    · have hex' : (t.any (fun x => x.user_id == u && x.product_id == p)) = true := by
        rcases List.any_eq_true.mp hex with ⟨x, hx, hxp⟩
        rcases List.mem_cons.mp hx with rfl | hxt
        · exact absurd hxp (by simp [hr])
        · exact List.any_eq_true.mpr ⟨x, hxt, hxp⟩
      rw [List.map_cons, if_neg (by simp [hr]), List.filter_cons, if_neg (by simp [hr])]
      exact ih hkt hex'

theorem upsert_filter_key (l : List CartRow) (u p : Nat) (q : Int)
    (h : (l.map (fun r => (r.user_id, r.product_id))).Nodup) :
    (upsertCartRow l u p q).filter (fun r => r.user_id == u && r.product_id == p)
      = [⟨u, p, q⟩] := by
  unfold upsertCartRow
  by_cases hex : (l.any (fun r => r.user_id == u && r.product_id == p)) = true
  · rw [if_pos hex]
    exact map_update_filter_key l u p q h hex
  · rw [if_neg hex, List.filter_append]
    have hall : ∀ x ∈ l, ((x.user_id == u && x.product_id == p)) = false := by
      intro x hx
      rcases Bool.eq_false_or_eq_true (x.user_id == u && x.product_id == p) with hc | hc
      · exact absurd (List.any_eq_true.mpr ⟨x, hx, hc⟩) hex
      · exact hc
    rw [filter_key_eq_nil l u p hall]
    simp

theorem map_update_filter_ne (l : List CartRow) (u p : Nat) (q : Int) :
    (l.map (fun r =>
        if r.user_id == u && r.product_id == p then { r with quantity := q } else r)).filter
      (fun r => !(r.user_id == u && r.product_id == p))
      = l.filter (fun r => !(r.user_id == u && r.product_id == p)) := by
  induction l with
  | nil => rfl
  | cons r t ih =>
    rcases Bool.eq_false_or_eq_true (r.user_id == u && r.product_id == p) with hr | hr
    · have hmodc : ((({ r with quantity := q } : CartRow).user_id == u
          && ({ r with quantity := q } : CartRow).product_id == p)) = true := hr
      rw [List.map_cons, if_pos hr, List.filter_cons, List.filter_cons]
      rw [if_neg (by simp [hmodc]), if_neg (by simp [hr]), ih]
    · rw [List.map_cons, if_neg (by simp [hr]), List.filter_cons, List.filter_cons]
      rw [if_pos (by simp [hr]), if_pos (by simp [hr]), ih]

theorem upsert_filter_ne (l : List CartRow) (u p : Nat) (q : Int) :
    (upsertCartRow l u p q).filter (fun r => !(r.user_id == u && r.product_id == p))
      = l.filter (fun r => !(r.user_id == u && r.product_id == p)) := by
  unfold upsertCartRow
  by_cases hex : (l.any (fun r => r.user_id == u && r.product_id == p)) = true
  · rw [if_pos hex]
    exact map_update_filter_ne l u p q
  · rw [if_neg hex, List.filter_append]
    simp

/-- C4: for a requested quantity of at least 1, `addToCart` fails with the
product-not-found error exactly when the product is absent, fails with the
insufficient-stock error exactly when total stock is below the requested
quantity, and otherwise succeeds, leaving products and orders untouched and
upserting the single (user, product) cart row to
`min(currentCartQty + requestedQty, stock)` while leaving every other row
unchanged. -/
theorem c4_addToCart (s : StoreState) (u p : Nat) (q : Int)
    (hq : 1 ≤ q) (hkeys : cartKeysNodup s) :
    ((addToCart s u p q).fst = cartErr "Product not found." ↔ productLookup s p = none) ∧
      ((addToCart s u p q).fst = cartErr "Not enough stock available." ↔
        ∃ prod, productLookup s p = some prod ∧ prod.stock < q) ∧
      (∀ prod, productLookup s p = some prod → q ≤ prod.stock →
        (addToCart s u p q).fst = cartOk ∧
          (addToCart s u p q).snd.products = s.products ∧
          (addToCart s u p q).snd.orders = s.orders ∧
          ((addToCart s u p q).snd.cart_items.filter
              (fun r => r.user_id == u && r.product_id == p))
            = [⟨u, p, min (currentCartQty s u p + q) prod.stock⟩] ∧
          ((addToCart s u p q).snd.cart_items.filter
              (fun r => !(r.user_id == u && r.product_id == p)))
            = s.cart_items.filter (fun r => !(r.user_id == u && r.product_id == p))) := by
  cases hlook : productLookup s p with
  | none =>
    refine ⟨by simp [addToCart, hlook], by simp [addToCart, hlook, cartErr], ?_⟩
    intro prod hprod
    exact absurd hprod (by simp)
  | some prod =>
    by_cases hs : prod.stock < q
    · refine ⟨by simp [addToCart, hlook, if_pos hs, cartErr],
        by simp [addToCart, hlook, if_pos hs, hs], ?_⟩
      intro prod2 hprod2 hle
      obtain rfl : prod = prod2 := Option.some.inj hprod2
      exact absurd hle (by omega)
    · have hstate : addToCart s u p q = (cartOk,
          { s with cart_items :=
              upsertCartRow s.cart_items u p (min (currentCartQty s u p + q) prod.stock) }) := by
        simp only [addToCart, hlook, if_neg hs]
      refine ⟨by simp [hstate, cartOk, cartErr],
        by simp [hstate, hs, cartOk, cartErr], ?_⟩
      intro prod2 hprod2 hle
      obtain rfl : prod = prod2 := Option.some.inj hprod2
      rw [hstate]
      exact ⟨rfl, rfl, rfl,
        upsert_filter_key s.cart_items u p _ hkeys,
        upsert_filter_ne s.cart_items u p _⟩

/-- C4 witness: concrete store with one product of stock 5, requested
quantity 2. -/
theorem c4_witness :
    (1 ≤ (2 : Int)) ∧
      cartKeysNodup ⟨[(1, ⟨"A", "d", 100, "u", 5, "Phone", 1⟩)], [], [], 1⟩ ∧
      ((addToCart ⟨[(1, ⟨"A", "d", 100, "u", 5, "Phone", 1⟩)], [], [], 1⟩ 7 1 2).fst
          = cartErr "Product not found."
        ↔ productLookup ⟨[(1, ⟨"A", "d", 100, "u", 5, "Phone", 1⟩)], [], [], 1⟩ 1 = none) :=
  ⟨by decide, by unfold cartKeysNodup; decide,
    (c4_addToCart ⟨[(1, ⟨"A", "d", 100, "u", 5, "Phone", 1⟩)], [], [], 1⟩ 7 1 2
      (by decide) (by unfold cartKeysNodup; decide)).1⟩

/-! ## Claim C6: cart quantity positivity -/

/-- C6 counterexample: starting from an empty cart (vacuously all
positive) over a product with stock 0, the single operation
`updateCartItem(7, 1, 1)` leaves a cart row with quantity 0: the code
clamps the requested quantity to `min(1, 0) = 0` and upserts the row
instead of deleting it or erroring. -/
theorem c6_counterexample :
    (runCartOps ⟨[(1, ⟨"A", "desc", 100, "url", 0, "Phone", 1⟩)], [], [], 1⟩
        [CartOp.updOp 7 1 1]).cart_items = [⟨7, 1, 0⟩] ∧
      ¬(∀ r ∈ (runCartOps ⟨[(1, ⟨"A", "desc", 100, "url", 0, "Phone", 1⟩)], [], [], 1⟩
          [CartOp.updOp 7 1 1]).cart_items, 1 ≤ r.quantity) :=
  ⟨by decide, by decide⟩

theorem mem_upsertCartRow {l : List CartRow} {u p : Nat} {q : Int} {r : CartRow}
    (hr : r ∈ upsertCartRow l u p q) : r.quantity = q ∨ r ∈ l := by
  unfold upsertCartRow at hr
  by_cases hex : (l.any (fun x => x.user_id == u && x.product_id == p)) = true
  · rw [if_pos hex] at hr
    rcases List.mem_map.mp hr with ⟨x, hx, hxr⟩
    rcases Bool.eq_false_or_eq_true (x.user_id == u && x.product_id == p) with hc | hc
    · rw [if_pos hc] at hxr
      left; rw [← hxr]
    · rw [if_neg (by simp [hc])] at hxr
      right; rw [← hxr]; exact hx
  · rw [if_neg hex] at hr
    rcases List.mem_append.mp hr with hx | hx
    · right; exact hx
    · left
      have hxr : r = (⟨u, p, q⟩ : CartRow) := by simpa using hx
      rw [hxr]

theorem applyCartOp_products (s : StoreState) (op : CartOp) :
    (applyCartOp s op).products = s.products := by
  cases op with
  | addOp u p q =>
    simp only [applyCartOp]
    cases hlook : productLookup s p with
    | none => simp [addToCart, hlook]
    | some prod =>
      by_cases hs : prod.stock < q
      · simp [addToCart, hlook, if_pos hs]
      · simp [addToCart, hlook, if_neg hs]
  | updOp u p q =>
    simp only [applyCartOp]
    by_cases hq : q ≤ 0
    · simp [updateCartItem, if_pos hq]
    · cases hlook : productLookup s p with
      | none => simp [updateCartItem, if_neg hq, hlook]
      | some prod => simp [updateCartItem, if_neg hq, hlook]
  | remOp u p => rfl

theorem applyCartOp_quantities (s : StoreState) (op : CartOp)
    (hpos : ∀ r ∈ s.cart_items, 1 ≤ r.quantity)
    (hsafe : cartOpSafe s op) :
    ∀ r ∈ (applyCartOp s op).cart_items, 1 ≤ r.quantity := by
  cases op with
  | addOp u p q =>
    simp only [applyCartOp]
    cases hlook : productLookup s p with
    | none => simpa [addToCart, hlook] using hpos
    | some prod =>
      by_cases hs : prod.stock < q
      · simpa [addToCart, hlook, if_pos hs] using hpos
      · intro r hr
        have hr' : r ∈ upsertCartRow s.cart_items u p
            (min (currentCartQty s u p + q) prod.stock) := by
          simpa [addToCart, hlook, if_neg hs] using hr
        rcases mem_upsertCartRow hr' with hq' | hmem
        · rw [hq']
          have hq1 : 1 ≤ q := hsafe
          have hcur : 0 ≤ currentCartQty s u p := by
            unfold currentCartQty
            cases hc : cartRowLookup s u p with
            | none => simp
            | some row =>
              have hrowmem : row ∈ s.cart_items := List.mem_of_find?_eq_some hc
              have := hpos row hrowmem
              simp only []
              omega
          rw [le_min_iff]
          exact ⟨by omega, by omega⟩
        · exact hpos r hmem
  | updOp u p q =>
    simp only [applyCartOp]
    by_cases hq : q ≤ 0
    · intro r hr
      have hr' : r ∈ deleteCartRow s.cart_items u p := by
        simpa [updateCartItem, if_pos hq] using hr
      exact hpos r (List.mem_of_mem_filter hr')
    · cases hlook : productLookup s p with
      | none => simpa [updateCartItem, if_neg hq, hlook] using hpos
      | some prod =>
        intro r hr
        have hr' : r ∈ upsertCartRow s.cart_items u p (min q prod.stock) := by
          simpa [updateCartItem, if_neg hq, hlook] using hr
        rcases mem_upsertCartRow hr' with hq' | hmem
        · rw [hq']
          have hstock : 1 ≤ prod.stock := by
            rcases hsafe with hle | hst
            · omega
            · simp only [hlook] at hst
              exact hst
          rw [le_min_iff]
          exact ⟨by omega, hstock⟩
        · exact hpos r hmem
  | remOp u p =>
    intro r hr
    have hr' : r ∈ deleteCartRow s.cart_items u p := by
      simpa [removeCartItem] using hr
    exact hpos r (List.mem_of_mem_filter hr')

/-- C6 amended: starting from a cart whose rows all have quantity ≥ 1,
after any finite sequence of `addToCart`, `updateCartItem` and
`removeCartItem` operations in which every `addToCart` requests at least 1
unit and every `updateCartItem` either removes the row (quantity ≤ 0) or
targets a product whose stock is at least 1, every existing cart row still
has quantity ≥ 1.  (Without the stock condition the invariant fails:
`updateCartItem` with a positive quantity against a zero-stock product
clamps the row to quantity 0, as the counterexample shows.) -/
theorem c6_cart_quantities_amended (s : StoreState) (ops : List CartOp)
    (hpos : ∀ r ∈ s.cart_items, 1 ≤ r.quantity)
    (hsafe : ∀ op ∈ ops, cartOpSafe s op) :
    ∀ r ∈ (runCartOps s ops).cart_items, 1 ≤ r.quantity := by
  induction ops generalizing s with
  | nil => exact hpos
  | cons op rest ih =>
    simp only [runCartOps]
    apply ih
    · exact applyCartOp_quantities s op hpos (hsafe op (List.mem_cons_self op rest))
    · intro op2 hop2
      have hs2 := hsafe op2 (List.mem_cons_of_mem op hop2)
      cases op2 with
      | addOp u2 p2 q2 => exact hs2
      | remOp u2 p2 => exact hs2
      | updOp u2 p2 q2 =>
        have hprod : productLookup (applyCartOp s op) p2 = productLookup s p2 := by
          unfold productLookup
          rw [applyCartOp_products]
        simp only [cartOpSafe] at hs2 ⊢
        rw [hprod]
        exact hs2

/-- C6 witness: a concrete safe run (stock 5, one addToCart of 2). -/
theorem c6_witness :
    (∀ r ∈ (⟨[(1, ⟨"A", "d", 100, "u", 5, "Phone", 1⟩)], [], [], 1⟩ : StoreState).cart_items,
        1 ≤ r.quantity) ∧
      (∀ op ∈ [CartOp.addOp 7 1 2],
        cartOpSafe ⟨[(1, ⟨"A", "d", 100, "u", 5, "Phone", 1⟩)], [], [], 1⟩ op) ∧
      (∀ r ∈ (runCartOps ⟨[(1, ⟨"A", "d", 100, "u", 5, "Phone", 1⟩)], [], [], 1⟩
          [CartOp.addOp 7 1 2]).cart_items, 1 ≤ r.quantity) := by
  refine ⟨by decide, ?_, ?_⟩
  · intro op hop
    have hop' : op = CartOp.addOp 7 1 2 := by simpa using hop
    subst hop'
    simp only [cartOpSafe]
    decide
  · exact c6_cart_quantities_amended
      ⟨[(1, ⟨"A", "d", 100, "u", 5, "Phone", 1⟩)], [], [], 1⟩ [CartOp.addOp 7 1 2]
      (by decide)
      (by
        intro op hop
        have hop' : op = CartOp.addOp 7 1 2 := by simpa using hop
        subst hop'
        simp only [cartOpSafe]
        decide)

/-! ## Lemmas about product lookups through the decrement map -/

theorem find?_map_update_ne (prods : List (Nat × Product)) (pid x : Nat) (g : Product → Product)
    (hne : x ≠ pid) :
    (prods.map (fun kv => if kv.fst == pid then (kv.fst, g kv.snd) else kv)).find?
        (fun kv => kv.fst == x)
      = prods.find? (fun kv => kv.fst == x) := by
  induction prods with
  | nil => rfl
  | cons kv t ih =>
    have hfst : (if (kv.fst == pid) = true then (kv.fst, g kv.snd) else kv).fst = kv.fst := by
      by_cases hk : (kv.fst == pid) = true <;> simp [hk]
    have hsc : ((if (kv.fst == pid) = true then (kv.fst, g kv.snd) else kv).fst == x)
        = (kv.fst == x) := by rw [hfst]
    rw [List.map_cons, List.find?_cons, List.find?_cons, hsc]
    rcases Bool.eq_false_or_eq_true (kv.fst == x) with hx | hx
    · have hxe : kv.fst = x := by simpa using hx
      rw [if_neg (by simp [hxe, hne]), hx]
    · rw [hx]
      exact ih

theorem find?_map_update_eq (prods : List (Nat × Product)) (pid : Nat) (g : Product → Product) :
    (prods.map (fun kv => if kv.fst == pid then (kv.fst, g kv.snd) else kv)).find?
        (fun kv => kv.fst == pid)
      = (prods.find? (fun kv => kv.fst == pid)).map (fun kv => (kv.fst, g kv.snd)) := by
  induction prods with
  | nil => rfl
  | cons kv t ih =>
    have hfst : (if (kv.fst == pid) = true then (kv.fst, g kv.snd) else kv).fst = kv.fst := by
      by_cases hk : (kv.fst == pid) = true <;> simp [hk]
    have hsc : ((if (kv.fst == pid) = true then (kv.fst, g kv.snd) else kv).fst == pid)
        = (kv.fst == pid) := by rw [hfst]
    rw [List.map_cons, List.find?_cons, List.find?_cons, hsc]
    rcases Bool.eq_false_or_eq_true (kv.fst == pid) with hk | hk
    · rw [if_pos hk, hk]
      rfl
    · rw [hk]
      exact ih

theorem find?_eq_of_mem_nodup {l : List (Nat × Product)} (h : (l.map Prod.fst).Nodup)
    {kv : Nat × Product} (hm : kv ∈ l) :
    l.find? (fun x => x.fst == kv.fst) = some kv := by
  induction l with
  | nil => cases hm
  | cons a t ih =>
    rw [List.map_cons, List.nodup_cons] at h
    obtain ⟨hnot, ht⟩ := h
    rcases List.mem_cons.mp hm with rfl | hmt
    · simp [List.find?_cons]
    · have hne : (a.fst == kv.fst) = false := by
        refine beq_eq_false_iff_ne.mpr ?_
        intro heq
        exact hnot (by rw [heq]; exact List.mem_map.mpr ⟨kv, hmt, rfl⟩)
      simp [List.find?_cons, hne, ih ht hmt]

/-! ## Lemmas about the decrement-and-clear loop of createOrder -/

theorem find?_decrement_ne (prods : List (Nat × Product)) (pid x : Nat) (q : Int)
    (hne : x ≠ pid) :
    (prods.map (fun kv =>
        if kv.fst == pid then (kv.fst, { kv.snd with stock := kv.snd.stock - q }) else kv)).find?
        (fun kv => kv.fst == x)
      = prods.find? (fun kv => kv.fst == x) :=
  find?_map_update_ne prods pid x (fun p => { p with stock := p.stock - q }) hne

theorem find?_decrement_eq (prods : List (Nat × Product)) (pid : Nat) (q : Int) :
    (prods.map (fun kv =>
        if kv.fst == pid then (kv.fst, { kv.snd with stock := kv.snd.stock - q }) else kv)).find?
        (fun kv => kv.fst == pid)
      = (prods.find? (fun kv => kv.fst == pid)).map
          (fun kv => (kv.fst, { kv.snd with stock := kv.snd.stock - q })) :=
  find?_map_update_eq prods pid (fun p => { p with stock := p.stock - q })

theorem decrementAndClear_orders (s : StoreState) (docs : List CartRow) :
    (decrementAndClear s docs).orders = s.orders := by
  induction docs generalizing s with
  | nil => rfl
  | cons c rest ih =>
    simp only [decrementAndClear]
    rw [ih]

theorem decrementAndClear_counter (s : StoreState) (docs : List CartRow) :
    (decrementAndClear s docs).order_counter = s.order_counter := by
  induction docs generalizing s with
  | nil => rfl
  | cons c rest ih =>
    simp only [decrementAndClear]
    rw [ih]

theorem decrementAndClear_product_keys (s : StoreState) (docs : List CartRow) :
    (decrementAndClear s docs).products.map Prod.fst = s.products.map Prod.fst := by
  induction docs generalizing s with
  | nil => rfl
  | cons c rest ih =>
    simp only [decrementAndClear]
    rw [ih, List.map_map]
    exact List.map_congr_left (fun kv _ => by
      by_cases hk : kv.fst = c.product_id <;> simp [hk])

theorem decrementAndClear_cart_sublist (s : StoreState) (docs : List CartRow) :
    (decrementAndClear s docs).cart_items.Sublist s.cart_items := by
  induction docs generalizing s with
  | nil => exact List.Sublist.refl _
  | cons c rest ih =>
    simp only [decrementAndClear]
    exact (ih _).trans (List.filter_sublist s.cart_items)

theorem mem_decrementAndClear_cart {s : StoreState} {docs : List CartRow} {r : CartRow}
    (h : r ∈ (decrementAndClear s docs).cart_items) :
    r ∈ s.cart_items ∧ ∀ c ∈ docs, ¬(r.user_id = c.user_id ∧ r.product_id = c.product_id) := by
  induction docs generalizing s with
  | nil => exact ⟨h, by simp⟩
  | cons c rest ih =>
    simp only [decrementAndClear] at h
    obtain ⟨hmem, hrest⟩ := ih h
    have hmem' := List.mem_filter.mp hmem
    refine ⟨hmem'.1, ?_⟩
    intro c2 hc2
    rcases List.mem_cons.mp hc2 with rfl | hc2t
    · rintro ⟨h1, h2⟩
      have hb := hmem'.2
      simp [h1, h2] at hb
    · exact hrest c2 hc2t

theorem decrementAndClear_lookup_ne (s : StoreState) (docs : List CartRow) (x : Nat)
    (hnot : ∀ c ∈ docs, c.product_id ≠ x) :
    productLookup (decrementAndClear s docs) x = productLookup s x := by
  induction docs generalizing s with
  | nil => rfl
  | cons c rest ih =>
    simp only [decrementAndClear]
    rw [ih _ (fun c2 hc2 => hnot c2 (List.mem_cons_of_mem c hc2))]
    simp only [productLookup]
    rw [find?_decrement_ne s.products c.product_id x c.quantity
      (Ne.symm (hnot c (List.mem_cons_self c rest)))]

theorem decrementAndClear_lookup_self (s : StoreState) (docs : List CartRow)
    (hnodup : (docs.map (fun c => c.product_id)).Nodup) :
    ∀ c ∈ docs, productLookup (decrementAndClear s docs) c.product_id
      = (productLookup s c.product_id).map
          (fun p => { p with stock := p.stock - c.quantity }) := by
  induction docs generalizing s with
  | nil => intro c hc; cases hc
  | cons d rest ih =>
    intro c hc
    rw [List.map_cons, List.nodup_cons] at hnodup
    obtain ⟨hdnot, hrestnodup⟩ := hnodup
    rcases List.mem_cons.mp hc with rfl | hct
    · simp only [decrementAndClear]
      rw [decrementAndClear_lookup_ne _ rest c.product_id (fun c2 hc2 heq =>
        hdnot (by rw [← heq]; exact List.mem_map.mpr ⟨c2, hc2, rfl⟩))]
      simp only [productLookup]
      rw [find?_decrement_eq s.products c.product_id c.quantity]
      cases s.products.find? (fun kv => kv.fst == c.product_id) <;> rfl
    · have hne : c.product_id ≠ d.product_id := by
        intro heq
        exact hdnot (List.mem_map.mpr ⟨c, hct, heq⟩)
      simp only [decrementAndClear]
      rw [ih _ hrestnodup c hct]
      have hlkp : productLookup
          { s with
            products := s.products.map (fun kv =>
              if kv.fst == d.product_id then
                (kv.fst, { kv.snd with stock := kv.snd.stock - d.quantity })
              else kv)
            cart_items := deleteCartRow s.cart_items d.user_id d.product_id } c.product_id
          = productLookup s c.product_id := by
        simp only [productLookup]
        rw [find?_decrement_ne s.products d.product_id c.product_id d.quantity hne]
      rw [hlkp]

theorem decrementAndClear_stock_nonneg (s : StoreState) (docs : List CartRow) (k : Nat)
    (hpnodup : (s.products.map Prod.fst).Nodup)
    (hdnodup : (docs.map (fun c => c.product_id)).Nodup)
    (hok : ∀ c ∈ docs, ∃ p, productLookup s c.product_id = some p ∧ c.quantity ≤ p.stock)
    (hk : ∀ kv ∈ s.products, kv.fst = k → 0 ≤ kv.snd.stock) :
    ∀ kv ∈ (decrementAndClear s docs).products, kv.fst = k → 0 ≤ kv.snd.stock := by
  induction docs generalizing s with
  | nil => exact hk
  | cons d rest ih =>
    rw [List.map_cons, List.nodup_cons] at hdnodup
    obtain ⟨hdnot, hrestnodup⟩ := hdnodup
    simp only [decrementAndClear]
    have hkeys2 : ((s.products.map (fun kv =>
        if kv.fst == d.product_id then
          (kv.fst, { kv.snd with stock := kv.snd.stock - d.quantity })
        else kv)).map Prod.fst) = s.products.map Prod.fst := by
      rw [List.map_map]
      exact List.map_congr_left (fun kv _ => by
        by_cases hkk : kv.fst = d.product_id <;> simp [hkk])
    apply ih
    · rw [hkeys2]; exact hpnodup
    · exact hrestnodup
    · intro c hc
      obtain ⟨p, hp, hqs⟩ := hok c (List.mem_cons_of_mem d hc)
      refine ⟨p, ?_, hqs⟩
      have hne : c.product_id ≠ d.product_id := by
        intro heq
        exact hdnot (List.mem_map.mpr ⟨c, hc, heq⟩)
      have hlkp : productLookup
          { s with
            products := s.products.map (fun kv =>
              if kv.fst == d.product_id then
                (kv.fst, { kv.snd with stock := kv.snd.stock - d.quantity })
              else kv)
            cart_items := deleteCartRow s.cart_items d.user_id d.product_id } c.product_id
          = productLookup s c.product_id := by
        simp only [productLookup]
        rw [find?_decrement_ne s.products d.product_id c.product_id d.quantity hne]
      rw [hlkp]
      exact hp
    · intro kv hkv hfst
      rcases List.mem_map.mp hkv with ⟨kv0, hkv0, hkveq⟩
      obtain ⟨p, hp, hqs⟩ := hok d (List.mem_cons_self d rest)
      rcases Bool.eq_false_or_eq_true (kv0.fst == d.product_id) with hkk | hkk
      · have hfste : kv0.fst = d.product_id := by simpa using hkk
        have hfind : s.products.find? (fun x => x.fst == kv0.fst) = some kv0 :=
          find?_eq_of_mem_nodup hpnodup hkv0
        have hlk : productLookup s d.product_id = some kv0.snd := by
          simp only [productLookup]
          rw [← hfste, hfind]
          rfl
        rw [hlk] at hp
        have hpe : p = kv0.snd := Option.some.inj hp.symm
        rw [hpe] at hqs
        rw [if_pos hkk] at hkveq
        rw [← hkveq]
        show 0 ≤ kv0.snd.stock - d.quantity
        omega
      · rw [if_neg (by simp [hkk])] at hkveq
        rw [← hkveq]
        exact hk kv0 hkv0 (by rw [hkveq]; exact hfst)

/-! ## Lemmas about the validation loop of createOrder -/

theorem buildOrderItems_ok (s : StoreState) (l : List CartRow)
    (hok : ∀ c ∈ l, match productLookup s c.product_id with
                    | some p => c.quantity ≤ p.stock
                    | none => False) :
    ∃ items, buildOrderItems s l = Except.ok items ∧
      List.Forall₂ (fun (c : CartRow) (i : OrderItem) =>
        ∃ p, productLookup s c.product_id = some p ∧
          i = ⟨c.product_id, p.name, c.quantity, p.price⟩) l items := by
  induction l with
  | nil => exact ⟨[], rfl, List.Forall₂.nil⟩
  | cons c rest ih =>
    have hc := hok c (List.mem_cons_self c rest)
    cases hlook : productLookup s c.product_id with
    | none =>
      rw [hlook] at hc
      exact absurd hc (by simp)
    | some p =>
      rw [hlook] at hc
      obtain ⟨items, hbuild, hrel⟩ := ih (fun c2 hc2 => hok c2 (List.mem_cons_of_mem c hc2))
      refine ⟨⟨c.product_id, p.name, c.quantity, p.price⟩ :: items, ?_, ?_⟩
      · simp only [buildOrderItems, hlook, if_neg (by omega : ¬p.stock < c.quantity), hbuild]
      · exact List.Forall₂.cons ⟨p, hlook, rfl⟩ hrel

theorem buildOrderItems_sound (s : StoreState) (l : List CartRow) (items : List OrderItem)
    (h : buildOrderItems s l = Except.ok items) :
    ∀ c ∈ l, ∃ p, productLookup s c.product_id = some p ∧ c.quantity ≤ p.stock := by
  induction l generalizing items with
  | nil => intro c hc; cases hc
  | cons c0 rest ih =>
    intro c hc
    cases hlook : productLookup s c0.product_id with
    | none =>
      simp only [buildOrderItems, hlook] at h
      cases h
    | some p =>
      by_cases hs : p.stock < c0.quantity
      · simp only [buildOrderItems, hlook, if_pos hs] at h
        cases h
      · simp only [buildOrderItems, hlook, if_neg hs] at h
        cases hrest : buildOrderItems s rest with
        | error msg =>
          rw [hrest] at h
          cases h
        | ok items2 =>
          rcases List.mem_cons.mp hc with rfl | hct
          · exact ⟨p, hlook, by omega⟩
          · exact ih items2 hrest c hct

theorem buildOrderItems_error_of_bad (s : StoreState) (l : List CartRow)
    (hbad : ∃ c ∈ l, match productLookup s c.product_id with
                     | none => True
                     | some p => p.stock < c.quantity) :
    ∃ msg, buildOrderItems s l = Except.error msg := by
  induction l with
  | nil =>
    obtain ⟨c, hc, _⟩ := hbad
    cases hc
  | cons c0 rest ih =>
    cases hlook : productLookup s c0.product_id with
    | none => exact ⟨"Product not found in cart.", by simp only [buildOrderItems, hlook]⟩
    | some p =>
      by_cases hs : p.stock < c0.quantity
      · exact ⟨"Insufficient stock for " ++ p.name ++ ".",
          by simp only [buildOrderItems, hlook, if_pos hs]⟩
      · have hbad2 : ∃ c ∈ rest, match productLookup s c.product_id with
            | none => True
            | some p => p.stock < c.quantity := by
          obtain ⟨c, hc, hcb⟩ := hbad
          rcases List.mem_cons.mp hc with rfl | hct
          · rw [hlook] at hcb
            exact absurd hcb hs
          · exact ⟨c, hct, hcb⟩
        obtain ⟨msg, hmsg⟩ := ih hbad2
        exact ⟨msg, by simp only [buildOrderItems, hlook, if_neg hs, hmsg]⟩

theorem buildOrderItems_error_msg (s : StoreState) (l : List CartRow) (msg : String)
    (hall : ∀ c ∈ l, productLookup s c.product_id ≠ none)
    (h : buildOrderItems s l = Except.error msg) :
    ∃ c ∈ l, ∃ p, productLookup s c.product_id = some p ∧ p.stock < c.quantity ∧
      msg = "Insufficient stock for " ++ p.name ++ "." := by
  induction l with
  | nil =>
    simp only [buildOrderItems] at h
    cases h
  | cons c0 rest ih =>
    cases hlook : productLookup s c0.product_id with
    | none => exact absurd hlook (hall c0 (List.mem_cons_self c0 rest))
    | some p =>
      by_cases hs : p.stock < c0.quantity
      · simp only [buildOrderItems, hlook, if_pos hs] at h
        cases h
        exact ⟨c0, List.mem_cons_self c0 rest, p, hlook, hs, rfl⟩
      · simp only [buildOrderItems, hlook, if_neg hs] at h
        cases hrest : buildOrderItems s rest with
        | error msg2 =>
          rw [hrest] at h
          cases h
          obtain ⟨c, hct, p2, hp2, hs2, hmsg2⟩ :=
            ih (fun c hc => hall c (List.mem_cons_of_mem c0 hc)) hrest
          exact ⟨c, List.mem_cons_of_mem c0 hct, p2, hp2, hs2, hmsg2⟩
        | ok items =>
          rw [hrest] at h
          cases h

/-! ## Further well-formedness helpers -/

theorem upsert_keys_nodup (l : List CartRow) (u p : Nat) (q : Int)
    (h : (l.map (fun r => (r.user_id, r.product_id))).Nodup) :
    ((upsertCartRow l u p q).map (fun r => (r.user_id, r.product_id))).Nodup := by
  unfold upsertCartRow
  by_cases hex : (l.any (fun r => r.user_id == u && r.product_id == p)) = true
  · rw [if_pos hex]
    have hkeq : ((l.map (fun r =>
        if r.user_id == u && r.product_id == p then { r with quantity := q } else r)).map
          (fun r => (r.user_id, r.product_id)))
        = l.map (fun r => (r.user_id, r.product_id)) := by
      rw [List.map_map]
      exact List.map_congr_left (fun r _ => by
        by_cases hr : r.user_id = u ∧ r.product_id = p <;> simp [hr])
    rw [hkeq]
    exact h
  · rw [if_neg hex, List.map_append]
    refine List.Nodup.append h (by simp) ?_
    intro a ha hb
    have hab : a = (u, p) := by simpa using hb
    subst hab
    rcases List.mem_map.mp ha with ⟨r, hr, hkeq⟩
    have h1 : r.user_id = u := congrArg Prod.fst hkeq
    have h2 : r.product_id = p := congrArg Prod.snd hkeq
    exact hex (List.any_eq_true.mpr ⟨r, hr, by simp [h1, h2]⟩)

theorem buildOrderItems_congr (s s2 : StoreState) (hprod : s.products = s2.products)
    (l : List CartRow) : buildOrderItems s l = buildOrderItems s2 l := by
  induction l with
  | nil => rfl
  | cons c rest ih =>
    have hlk : productLookup s c.product_id = productLookup s2 c.product_id := by
      simp only [productLookup, hprod]
    simp only [buildOrderItems, hlk, ih]

theorem cart_filter_pids_nodup (s : StoreState) (u : Nat) (h : cartKeysNodup s) :
    ((s.cart_items.filter (fun r => r.user_id == u)).map (fun r => r.product_id)).Nodup := by
  have hkeys : ((s.cart_items.filter (fun r => r.user_id == u)).map
      (fun r => (r.user_id, r.product_id))).Nodup :=
    List.Nodup.sublist ((List.filter_sublist s.cart_items).map _) h
  have huser : ∀ r ∈ s.cart_items.filter (fun r => r.user_id == u), r.user_id = u := by
    intro r hr
    have := (List.mem_filter.mp hr).2
    simpa using this
  generalize s.cart_items.filter (fun r => r.user_id == u) = L at hkeys huser ⊢
  induction L with
  | nil => simp
  | cons r t ih =>
    rw [List.map_cons, List.nodup_cons] at hkeys
    obtain ⟨hknot, hkt⟩ := hkeys
    rw [List.map_cons, List.nodup_cons]
    refine ⟨?_, ih hkt (fun x hx => huser x (List.mem_cons_of_mem r hx))⟩
    intro hmem
    rcases List.mem_map.mp hmem with ⟨x, hx, hpe⟩
    apply hknot
    have hru : r.user_id = u := huser r (List.mem_cons_self r t)
    have hxu : x.user_id = u := huser x (List.mem_cons_of_mem r hx)
    refine List.mem_map.mpr ⟨x, hx, ?_⟩
    rw [hxu, hru, hpe]

/-! ## Claim C1: successful checkout -/

/-- C1: for a user whose cart is non-empty and every line's quantity is at
most the referenced product's current stock (over a store with unique doc
ids), `createOrder` succeeds with the freshly minted order id, returns the
persisted Order with status "Pending", items equal to the frozen
{product_id, name, quantity, price_at_purchase} snapshot of the cart lines
against the products at transaction time, total_amount equal to the sum of
quantity times price over the snapshot, the order is persisted in the
store, the user's cart is empty afterwards, and every purchased product's
stock has decreased by exactly the purchased quantity. -/
theorem c1_createOrder_success (s : StoreState) (u : Nat) (sh : Shipping) (t : Nat)
    (hkeys : cartKeysNodup s) (hpkeys : productKeysNodup s)
    (hne : s.cart_items.filter (fun r => r.user_id == u) ≠ [])
    (hok : ∀ c ∈ s.cart_items.filter (fun r => r.user_id == u),
      match productLookup s c.product_id with
      | some p => c.quantity ≤ p.stock
      | none => False) :
    ∃ ord : Order,
      (createOrder s u sh t).fst = ⟨true, none, some (s.order_counter, ord)⟩ ∧
        ord.status = "Pending" ∧ ord.user_id = u ∧ ord.created_at = t ∧
        List.Forall₂ (fun (c : CartRow) (i : OrderItem) =>
            ∃ p, productLookup s c.product_id = some p ∧
              i = ⟨c.product_id, p.name, c.quantity, p.price⟩)
          (s.cart_items.filter (fun r => r.user_id == u)) ord.items ∧
        ord.total_amount = (ord.items.map (fun i => i.price_at_purchase * i.quantity)).sum ∧
        (s.order_counter, ord) ∈ (createOrder s u sh t).snd.orders ∧
        (createOrder s u sh t).snd.cart_items.filter (fun r => r.user_id == u) = [] ∧
        (∀ c ∈ s.cart_items.filter (fun r => r.user_id == u), ∀ p,
          productLookup s c.product_id = some p →
          productLookup (createOrder s u sh t).snd c.product_id
            = some { p with stock := p.stock - c.quantity }) := by
  obtain ⟨items, hbuild, hrel⟩ :=
    buildOrderItems_ok s (s.cart_items.filter (fun r => r.user_id == u)) hok
  have hbuild1 : buildOrderItems { s with order_counter := s.order_counter + 1 }
      (s.cart_items.filter (fun r => r.user_id == u)) = Except.ok items :=
    (buildOrderItems_congr { s with order_counter := s.order_counter + 1 } s rfl _).trans hbuild
  have hnef : (s.cart_items.filter (fun r => r.user_id == u)).isEmpty = false := by
    cases he : (s.cart_items.filter (fun r => r.user_id == u)).isEmpty with
    | false => rfl
    | true => exact absurd (by simpa using he) hne
  have hceq : createOrder s u sh t
      = (⟨true, none, some (s.order_counter,
          ⟨u, ((items.map (fun i => i.price_at_purchase * i.quantity)).sum), "Pending",
            sh.shipping_name, sh.shipping_phone, sh.shipping_address, t, items⟩)⟩,
        decrementAndClear
          { s with
            order_counter := s.order_counter + 1
            orders := s.orders ++ [(s.order_counter,
              ⟨u, ((items.map (fun i => i.price_at_purchase * i.quantity)).sum), "Pending",
                sh.shipping_name, sh.shipping_phone, sh.shipping_address, t, items⟩)] }
          (s.cart_items.filter (fun r => r.user_id == u))) := by
    simp only [createOrder, hnef, Bool.false_eq_true, if_false, hbuild1]
  refine ⟨⟨u, ((items.map (fun i => i.price_at_purchase * i.quantity)).sum), "Pending",
      sh.shipping_name, sh.shipping_phone, sh.shipping_address, t, items⟩,
    ?_, rfl, rfl, rfl, hrel, rfl, ?_, ?_, ?_⟩
  · rw [hceq]
  · simp only [hceq]
    rw [decrementAndClear_orders]
    simp
  · simp only [hceq]
    rw [List.eq_nil_iff_forall_not_mem]
    intro r hr
    have hr' := List.mem_filter.mp hr
    obtain ⟨hrmem, hnotdoc⟩ := mem_decrementAndClear_cart hr'.1
    have hrmem' : r ∈ s.cart_items := hrmem
    exact hnotdoc r (List.mem_filter.mpr ⟨hrmem', hr'.2⟩) ⟨rfl, rfl⟩
  · intro c hc p hp
    simp only [hceq]
    exact (decrementAndClear_lookup_self _
        (s.cart_items.filter (fun r => r.user_id == u))
        (cart_filter_pids_nodup s u hkeys) c hc).trans
      (congrArg (Option.map (fun p => { p with stock := p.stock - c.quantity })) hp)

/-- C1 witness: concrete store (product stock 10, price 100; cart line of
quantity 2 for user 7) where the checkout hypotheses hold. -/
theorem c1_witness :
    cartKeysNodup ⟨[(1, ⟨"A", "d", 100, "u", 10, "Phone", 1⟩)], [⟨7, 1, 2⟩], [], 3⟩ ∧
      productKeysNodup ⟨[(1, ⟨"A", "d", 100, "u", 10, "Phone", 1⟩)], [⟨7, 1, 2⟩], [], 3⟩ ∧
      (⟨[(1, ⟨"A", "d", 100, "u", 10, "Phone", 1⟩)], [⟨7, 1, 2⟩], [], 3⟩
          : StoreState).cart_items.filter (fun r => r.user_id == 7) ≠ [] ∧
      ∃ ord : Order,
        (createOrder ⟨[(1, ⟨"A", "d", 100, "u", 10, "Phone", 1⟩)], [⟨7, 1, 2⟩], [], 3⟩
            7 ⟨"n", "ph", "ad"⟩ 99).fst = ⟨true, none, some (3, ord)⟩ := by
  have h1 : cartKeysNodup
      (⟨[(1, ⟨"A", "d", 100, "u", 10, "Phone", 1⟩)], [⟨7, 1, 2⟩], [], 3⟩ : StoreState) := by
    unfold cartKeysNodup; decide
  have h2 : productKeysNodup
      (⟨[(1, ⟨"A", "d", 100, "u", 10, "Phone", 1⟩)], [⟨7, 1, 2⟩], [], 3⟩ : StoreState) := by
    unfold productKeysNodup; decide
  have h3 : (⟨[(1, ⟨"A", "d", 100, "u", 10, "Phone", 1⟩)], [⟨7, 1, 2⟩], [], 3⟩
      : StoreState).cart_items.filter (fun r => r.user_id == 7) ≠ [] := by decide
  have h4 : ∀ c ∈ (⟨[(1, ⟨"A", "d", 100, "u", 10, "Phone", 1⟩)], [⟨7, 1, 2⟩], [], 3⟩
      : StoreState).cart_items.filter (fun r => r.user_id == 7),
      match productLookup
          (⟨[(1, ⟨"A", "d", 100, "u", 10, "Phone", 1⟩)], [⟨7, 1, 2⟩], [], 3⟩ : StoreState)
          c.product_id with
      | some p => c.quantity ≤ p.stock
      | none => False := by
    intro c hc
    have hc2 : c = (⟨7, 1, 2⟩ : CartRow) := by
      rw [show (⟨[(1, ⟨"A", "d", 100, "u", 10, "Phone", 1⟩)], [⟨7, 1, 2⟩], [], 3⟩
          : StoreState).cart_items.filter (fun r => r.user_id == 7) = [⟨7, 1, 2⟩]
        from by decide] at hc
      simpa using hc
    subst hc2
    show (2 : Int) ≤ 10
    decide
  obtain ⟨ord, hfst, _⟩ := c1_createOrder_success _ 7 ⟨"n", "ph", "ad"⟩ 99 h1 h2 h3 h4
  exact ⟨h1, h2, h3, ord, hfst⟩

/-! ## Claim C2: failed checkout mutates nothing -/

/-- C2: when some cart line of the user refers to a missing product or
exceeds its current stock, `createOrder` fails: it returns a failure
result carrying an error message, no product's stock is decremented, no
cart row is deleted, and no order document is created (only the order-id
counter, consumed before the transaction, has advanced).  If every line's
product exists, the failure message names the offending product. -/
theorem c2_createOrder_failure (s : StoreState) (u : Nat) (sh : Shipping) (t : Nat)
    (hbad : ∃ c ∈ s.cart_items.filter (fun r => r.user_id == u),
        match productLookup s c.product_id with
        | none => True
        | some p => p.stock < c.quantity) :
    (∃ msg, (createOrder s u sh t).fst = orderErr msg) ∧
      (createOrder s u sh t).snd.products = s.products ∧
      (createOrder s u sh t).snd.cart_items = s.cart_items ∧
      (createOrder s u sh t).snd.orders = s.orders ∧
      ((∀ c ∈ s.cart_items.filter (fun r => r.user_id == u),
          productLookup s c.product_id ≠ none) →
        ∃ c ∈ s.cart_items.filter (fun r => r.user_id == u), ∃ p,
          productLookup s c.product_id = some p ∧ p.stock < c.quantity ∧
          (createOrder s u sh t).fst
            = orderErr ("Insufficient stock for " ++ p.name ++ ".")) := by
  have hnef : (s.cart_items.filter (fun r => r.user_id == u)).isEmpty = false := by
    obtain ⟨c, hc, _⟩ := hbad
    cases he : (s.cart_items.filter (fun r => r.user_id == u)).isEmpty with
    | false => rfl
    | true =>
      rw [show s.cart_items.filter (fun r => r.user_id == u) = [] from by simpa using he] at hc
      cases hc
  obtain ⟨msg, hbuildE⟩ :=
    buildOrderItems_error_of_bad s (s.cart_items.filter (fun r => r.user_id == u)) hbad
  have hbuildE1 : buildOrderItems { s with order_counter := s.order_counter + 1 }
      (s.cart_items.filter (fun r => r.user_id == u)) = Except.error msg :=
    (buildOrderItems_congr { s with order_counter := s.order_counter + 1 } s rfl _).trans hbuildE
  have hceq : createOrder s u sh t
      = (orderErr msg, { s with order_counter := s.order_counter + 1 }) := by
    simp only [createOrder, hnef, Bool.false_eq_true, if_false, hbuildE1]
  refine ⟨⟨msg, by rw [hceq]⟩, by rw [hceq], by rw [hceq], by rw [hceq], ?_⟩
  intro hall
  obtain ⟨c, hc, p, hp, hslt, hmsg⟩ :=
    buildOrderItems_error_msg s (s.cart_items.filter (fun r => r.user_id == u)) msg hall hbuildE
  refine ⟨c, hc, p, hp, hslt, ?_⟩
  rw [hceq, hmsg]

/-- C2 witness: concrete store where the only cart line requests 20 units
of a product with stock 10. -/
theorem c2_witness :
    (∃ c ∈ (⟨[(1, ⟨"A", "d", 100, "u", 10, "Phone", 1⟩)], [⟨7, 1, 20⟩], [], 3⟩
        : StoreState).cart_items.filter (fun r => r.user_id == 7),
        match productLookup
            (⟨[(1, ⟨"A", "d", 100, "u", 10, "Phone", 1⟩)], [⟨7, 1, 20⟩], [], 3⟩ : StoreState)
            c.product_id with
        | none => True
        | some p => p.stock < c.quantity) ∧
      ∃ msg, (createOrder ⟨[(1, ⟨"A", "d", 100, "u", 10, "Phone", 1⟩)], [⟨7, 1, 20⟩], [], 3⟩
          7 ⟨"n", "ph", "ad"⟩ 99).fst = orderErr msg := by
  have hbad : ∃ c ∈ (⟨[(1, ⟨"A", "d", 100, "u", 10, "Phone", 1⟩)], [⟨7, 1, 20⟩], [], 3⟩
      : StoreState).cart_items.filter (fun r => r.user_id == 7),
      match productLookup
          (⟨[(1, ⟨"A", "d", 100, "u", 10, "Phone", 1⟩)], [⟨7, 1, 20⟩], [], 3⟩ : StoreState)
          c.product_id with
      | none => True
      | some p => p.stock < c.quantity := by
    refine ⟨⟨7, 1, 20⟩, by decide, ?_⟩
    show (10 : Int) < 20
    decide
  exact ⟨hbad, (c2_createOrder_failure _ 7 ⟨"n", "ph", "ad"⟩ 99 hbad).1⟩

/-! ## Claim C3: stock non-negativity -/

theorem applyOp_preserves (s : StoreState) (k : Nat) (op : StoreOp)
    (hkeys : cartKeysNodup s) (hpkeys : productKeysNodup s)
    (hk : ∀ kv ∈ s.products, kv.fst = k → 0 ≤ kv.snd.stock) :
    cartKeysNodup (applyOp s op) ∧ productKeysNodup (applyOp s op) ∧
      (∀ kv ∈ (applyOp s op).products, kv.fst = k → 0 ≤ kv.snd.stock) := by
  cases op with
  | addOp u p q =>
    cases hlook : productLookup s p with
    | none =>
      have hstate : (addToCart s u p q).snd = s := by simp [addToCart, hlook]
      simp only [applyOp]
      rw [hstate]
      exact ⟨hkeys, hpkeys, hk⟩
    | some prod =>
      by_cases hs : prod.stock < q
      · have hstate : (addToCart s u p q).snd = s := by simp [addToCart, hlook, if_pos hs]
        simp only [applyOp]
        rw [hstate]
        exact ⟨hkeys, hpkeys, hk⟩
      · have hstate : (addToCart s u p q).snd
            = { s with cart_items :=
                upsertCartRow s.cart_items u p (min (currentCartQty s u p + q) prod.stock) } := by
          simp [addToCart, hlook, if_neg hs]
        simp only [applyOp]
        rw [hstate]
        exact ⟨upsert_keys_nodup _ u p _ hkeys, hpkeys, hk⟩
  | updOp u p q =>
    by_cases hq0 : q ≤ 0
    · have hstate : (updateCartItem s u p q).snd
          = { s with cart_items := deleteCartRow s.cart_items u p } := by
        simp [updateCartItem, if_pos hq0]
      simp only [applyOp]
      rw [hstate]
      exact ⟨List.Nodup.sublist ((List.filter_sublist _).map _) hkeys, hpkeys, hk⟩
    · cases hlook : productLookup s p with
      | none =>
        have hstate : (updateCartItem s u p q).snd = s := by
          simp [updateCartItem, if_neg hq0, hlook]
        simp only [applyOp]
        rw [hstate]
        exact ⟨hkeys, hpkeys, hk⟩
      | some prod =>
        have hstate : (updateCartItem s u p q).snd
            = { s with cart_items := upsertCartRow s.cart_items u p (min q prod.stock) } := by
          simp [updateCartItem, if_neg hq0, hlook]
        simp only [applyOp]
        rw [hstate]
        exact ⟨upsert_keys_nodup _ u p _ hkeys, hpkeys, hk⟩
  | orderOp u2 sh t2 =>
    by_cases hemp : ((s.cart_items.filter (fun r => r.user_id == u2)).isEmpty) = true
    · have hstate : (createOrder s u2 sh t2).snd = s := by
        simp [createOrder, hemp]
      simp only [applyOp]
      rw [hstate]
      exact ⟨hkeys, hpkeys, hk⟩
    · have hempf : ((s.cart_items.filter (fun r => r.user_id == u2)).isEmpty) = false := by
        rcases Bool.eq_false_or_eq_true
          ((s.cart_items.filter (fun r => r.user_id == u2)).isEmpty) with h1 | h1
        · exact absurd h1 hemp
        · exact h1
      cases hbuild : buildOrderItems { s with order_counter := s.order_counter + 1 }
          (s.cart_items.filter (fun r => r.user_id == u2)) with
      | error msg =>
        have hstate : (createOrder s u2 sh t2).snd
            = { s with order_counter := s.order_counter + 1 } := by
          simp only [createOrder, hempf, Bool.false_eq_true, if_false, hbuild]
        simp only [applyOp]
        rw [hstate]
        exact ⟨hkeys, hpkeys, hk⟩
      | ok items =>
        have hstate : (createOrder s u2 sh t2).snd
            = decrementAndClear
                { s with
                  order_counter := s.order_counter + 1
                  orders := s.orders ++ [(s.order_counter,
                    ⟨u2, ((items.map (fun i => i.price_at_purchase * i.quantity)).sum),
                      "Pending", sh.shipping_name, sh.shipping_phone, sh.shipping_address,
                      t2, items⟩)] }
                (s.cart_items.filter (fun r => r.user_id == u2)) := by
          simp only [createOrder, hempf, Bool.false_eq_true, if_false, hbuild]
        have hok2 : ∀ c ∈ s.cart_items.filter (fun r => r.user_id == u2),
            ∃ p, productLookup s c.product_id = some p ∧ c.quantity ≤ p.stock :=
          buildOrderItems_sound { s with order_counter := s.order_counter + 1 } _ items hbuild
        simp only [applyOp]
        rw [hstate]
        refine ⟨?_, ?_, ?_⟩
        · exact List.Nodup.sublist ((decrementAndClear_cart_sublist _ _).map _) hkeys
        · unfold productKeysNodup
          rw [decrementAndClear_product_keys]
          exact hpkeys
        · exact decrementAndClear_stock_nonneg _ _ k hpkeys
            (cart_filter_pids_nodup s u2 hkeys) hok2 hk

theorem runOpsPreserved (k : Nat) : ∀ (ops : List StoreOp) (s : StoreState), cartKeysNodup s →
    productKeysNodup s → (∀ kv ∈ s.products, kv.fst = k → 0 ≤ kv.snd.stock) →
    ∀ kv ∈ (runOps s ops).products, kv.fst = k → 0 ≤ kv.snd.stock := by
  intro ops
  induction ops with
  | nil => intro s _ _ hk; exact hk
  | cons op rest ih =>
    intro s h1 h2 h3
    obtain ⟨h1a, h2a, h3a⟩ := applyOp_preserves s k op h1 h2 h3
    exact ih _ h1a h2a h3a

/-- C3: `addToCart` and `updateCartItem` never write any product (in
particular never stock), and for every product whose stock is initially
non-negative, stock remains non-negative after any finite sequence of
`addToCart`, `updateCartItem` and `placeOrder` (`createOrder`) operations
with arbitrary arguments, because `createOrder` decrements a product's
stock only after checking inside the same transaction that the purchased
quantity does not exceed the stock it read. -/
theorem c3_stock_invariant (s : StoreState) (k : Nat) (ops : List StoreOp)
    (hkeys : cartKeysNodup s) (hpkeys : productKeysNodup s)
    (hk : ∀ kv ∈ s.products, kv.fst = k → 0 ≤ kv.snd.stock) :
    (∀ (s2 : StoreState) (u p : Nat) (q : Int),
        (addToCart s2 u p q).snd.products = s2.products) ∧
      (∀ (s2 : StoreState) (u p : Nat) (q : Int),
        (updateCartItem s2 u p q).snd.products = s2.products) ∧
      (∀ kv ∈ (runOps s ops).products, kv.fst = k → 0 ≤ kv.snd.stock) := by
  refine ⟨?_, ?_, runOpsPreserved k ops s hkeys hpkeys hk⟩
  · intro s2 u p q
    exact applyCartOp_products s2 (CartOp.addOp u p q)
  · intro s2 u p q
    exact applyCartOp_products s2 (CartOp.updOp u p q)

/-- C3 witness: one concrete checkout run over a product with stock 3 and
a cart line of quantity 2. -/
theorem c3_witness :
    cartKeysNodup ⟨[(1, ⟨"A", "d", 100, "u", 3, "Phone", 1⟩)], [⟨7, 1, 2⟩], [], 3⟩ ∧
      productKeysNodup ⟨[(1, ⟨"A", "d", 100, "u", 3, "Phone", 1⟩)], [⟨7, 1, 2⟩], [], 3⟩ ∧
      (∀ kv ∈ (⟨[(1, ⟨"A", "d", 100, "u", 3, "Phone", 1⟩)], [⟨7, 1, 2⟩], [], 3⟩
          : StoreState).products, kv.fst = 1 → 0 ≤ kv.snd.stock) ∧
      (∀ kv ∈ (runOps ⟨[(1, ⟨"A", "d", 100, "u", 3, "Phone", 1⟩)], [⟨7, 1, 2⟩], [], 3⟩
          [StoreOp.orderOp 7 ⟨"n", "ph", "ad"⟩ 99]).products,
        kv.fst = 1 → 0 ≤ kv.snd.stock) := by
  have h1 : cartKeysNodup
      (⟨[(1, ⟨"A", "d", 100, "u", 3, "Phone", 1⟩)], [⟨7, 1, 2⟩], [], 3⟩ : StoreState) := by
    unfold cartKeysNodup; decide
  have h2 : productKeysNodup
      (⟨[(1, ⟨"A", "d", 100, "u", 3, "Phone", 1⟩)], [⟨7, 1, 2⟩], [], 3⟩ : StoreState) := by
    unfold productKeysNodup; decide
  have h3 : ∀ kv ∈ (⟨[(1, ⟨"A", "d", 100, "u", 3, "Phone", 1⟩)], [⟨7, 1, 2⟩], [], 3⟩
      : StoreState).products, kv.fst = 1 → 0 ≤ kv.snd.stock := by decide
  exact ⟨h1, h2, h3,
    (c3_stock_invariant _ 1 [StoreOp.orderOp 7 ⟨"n", "ph", "ad"⟩ 99] h1 h2 h3).2.2⟩
